import Mathlib

/-!
Verification of the quiz session engine in src/App.tsx and src/types.ts.

The data model and the operations are translated from the source:
shuffle, generateOptions, startGame, handleOptionClick (submitAnswer),
handleNext (advance) and the accuracy computation. JavaScript ambient
randomness is modelled by an explicit function argument giving, for each
loop index i, a natural number that is reduced mod (i+1), exactly the
range of Math.floor(Math.random() * (i + 1)). The static question list
imported from ./questions (not part of the sources) is a parameter.
-/

/-- A question record, from src/types.ts. The domain enum values are
strings in the source, so the domain field is a plain string here. -/
structure Question where
  id : String
  domain : String
  q : String
  a : String
deriving DecidableEq, Repr

/-- Session statistics, from src/types.ts. -/
structure Stats where
  correct : Nat
  wrong : Nat
  requeued : Nat
  totalAnswered : Nat
deriving DecidableEq, Repr

/-- The phase enum GameState from src/types.ts. -/
inductive GameState where
  | SETUP
  | PLAYING
  | SUMMARY
deriving DecidableEq, Repr

/-- TIMER_START = 20 * 60 seconds, from src/App.tsx line 5. -/
def TIMER_START : Nat := 20 * 60

/-- Swap of the entries at positions i and j of a list, the effect of
the destructuring assignment in the shuffle loop. Out-of-range indices
leave the list unchanged (the loop only produces in-range indices). -/
def lswap (l : List α) (i j : Nat) : List α :=
  if h : i < l.length ∧ j < l.length then
    (l.set i (l.get ⟨j, h.2⟩)).set j (l.get ⟨i, h.1⟩)
  else l

/-- One pass of the Fisher-Yates loop of shuffle (src/App.tsx lines
9-12): for the index n+1 the swap partner is rand (n+1) % (n+2), the
range of Math.floor(Math.random() * (i + 1)) at i = n+1; the loop then
continues downward and stops before index 0. -/
def shuffleGo (rand : Nat → Nat) : Nat → List α → List α
  | 0, l => l
  | n + 1, l => shuffleGo rand n (lswap l (n + 1) (rand (n + 1) % (n + 2)))

/-- shuffle from src/App.tsx lines 7-14: copy the array and run the
Fisher-Yates loop from the last index down to 1. -/
def shuffle (rand : Nat → Nat) (l : List α) : List α :=
  shuffleGo rand (l.length - 1) l

lemma cons_set_perm (t : List α) :
    ∀ (m : Nat) (hm : m < t.length) (x : α),
      List.Perm (t.get ⟨m, hm⟩ :: t.set m x) (x :: t) := by
  induction t with
  | nil => intro m hm; exact absurd hm (Nat.not_lt_zero m)
  | cons y t ih =>
    intro m hm x
    cases m with
    | zero =>
      simpa using List.Perm.swap x y t
    | succ k =>
      have hk : k < t.length := Nat.lt_of_succ_lt_succ hm
      have step1 : List.Perm (t.get ⟨k, hk⟩ :: y :: t.set k x) (y :: t.get ⟨k, hk⟩ :: t.set k x) :=
        List.Perm.swap y (t.get ⟨k, hk⟩) (t.set k x)
      have step2 : List.Perm (y :: t.get ⟨k, hk⟩ :: t.set k x) (y :: x :: t) :=
        (ih k hk x).cons y
      have step3 : List.Perm (y :: x :: t) (x :: y :: t) := List.Perm.swap x y t
      simpa using (step1.trans step2).trans step3

lemma set_get_set_perm :
    ∀ (l : List α) (i j : Nat) (hi : i < l.length) (hj : j < l.length),
      List.Perm ((l.set i (l.get ⟨j, hj⟩)).set j (l.get ⟨i, hi⟩)) l := by
  intro l
  induction l with
  | nil => intro i j hi; exact absurd hi (Nat.not_lt_zero i)
  | cons x t ih =>
    intro i j hi hj
    cases i with
    | zero =>
      cases j with
      | zero => simp
      | succ m =>
        have hm : m < t.length := Nat.lt_of_succ_lt_succ hj
        simpa using cons_set_perm t m hm x
    | succ n =>
      cases j with
      | zero =>
        have hn : n < t.length := Nat.lt_of_succ_lt_succ hi
        rw [List.set_comm _ _ _ (Nat.succ_ne_zero n)]
        simpa using cons_set_perm t n hn x
      | succ m =>
        have hn : n < t.length := Nat.lt_of_succ_lt_succ hi
        have hm : m < t.length := Nat.lt_of_succ_lt_succ hj
        simpa using (ih n m hn hm).cons x

lemma lswap_perm (l : List α) (i j : Nat) : List.Perm (lswap l i j) l := by
  unfold lswap
  split
  case isTrue h => exact set_get_set_perm l i j h.1 h.2
  case isFalse h => exact List.Perm.refl l

lemma shuffleGo_perm (rand : Nat → Nat) :
    ∀ (n : Nat) (l : List α), List.Perm (shuffleGo rand n l) l := by
  intro n
  induction n with
  | zero => intro l; exact List.Perm.refl l
  | succ k ih =>
    intro l
    exact (ih _).trans (lswap_perm l (k + 1) (rand (k + 1) % (k + 2)))

lemma shuffle_perm (rand : Nat → Nat) (l : List α) : List.Perm (shuffle rand l) l :=
  shuffleGo_perm rand (l.length - 1) l

lemma shuffle_length (rand : Nat → Nat) (l : List α) :
    (shuffle rand l).length = l.length :=
  (shuffle_perm rand l).length_eq

lemma shuffle_mem (rand : Nat → Nat) (l : List α) (x : α) :
    x ∈ shuffle rand l ↔ x ∈ l :=
  (shuffle_perm rand l).mem_iff

lemma shuffle_nodup (rand : Nat → Nat) (l : List α) :
    (shuffle rand l).Nodup ↔ l.Nodup :=
  (shuffle_perm rand l).nodup_iff

lemma shuffle_count [DecidableEq α] (rand : Nat → Nat) (l : List α) (x : α) :
    (shuffle rand l).count x = l.count x :=
  (shuffle_perm rand l).count_eq x

/-- First-occurrence deduplication, the behaviour of
Array.from(new Set(...)) in src/App.tsx line 56: keeps the first
occurrence of each value, in encounter order. The seen argument is the
set of values already emitted. -/
def dedupFirst [DecidableEq α] : List α → List α → List α
  | _, [] => []
  | seen, x :: xs =>
    if x ∈ seen then dedupFirst seen xs else x :: dedupFirst (x :: seen) xs

lemma mem_dedupFirst [DecidableEq α] (x : α) :
    ∀ (l seen : List α), x ∈ dedupFirst seen l ↔ x ∈ l ∧ x ∉ seen := by
  intro l
  induction l with
  | nil => intro seen; simp [dedupFirst]
  | cons y ys ih =>
    intro seen
    by_cases hy : y ∈ seen
    · simp only [dedupFirst, if_pos hy, ih, List.mem_cons]
      constructor
      · rintro ⟨hm, hs⟩; exact ⟨Or.inr hm, hs⟩
      · rintro ⟨hm | hm, hs⟩
        · exact absurd (hm ▸ hy) hs
        · exact ⟨hm, hs⟩
    · simp only [dedupFirst, if_neg hy, List.mem_cons, ih, List.mem_cons]
      constructor
      · rintro (hx | ⟨hm, hs⟩)
        · exact ⟨Or.inl hx, hx ▸ hy⟩
        · exact ⟨Or.inr hm, fun hxs => hs (Or.inr hxs)⟩
      · rintro ⟨hx | hm, hs⟩
        · exact Or.inl hx
        · by_cases hxy : x = y
          · exact Or.inl hxy
          · exact Or.inr ⟨hm, fun hc => by
              rcases hc with h1 | h1
              · exact hxy h1
              · exact hs h1⟩

lemma nodup_dedupFirst [DecidableEq α] :
    ∀ (l seen : List α), (dedupFirst seen l).Nodup := by
  intro l
  induction l with
  | nil => intro seen; simp [dedupFirst]
  | cons y ys ih =>
    intro seen
    by_cases hy : y ∈ seen
    · simpa [dedupFirst, if_pos hy] using ih seen
    · rw [dedupFirst, if_neg hy]
      refine List.nodup_cons.mpr ⟨fun hc => ?_, ih (y :: seen)⟩
      exact ((mem_dedupFirst y ys (y :: seen)).mp hc).2 (List.mem_cons_self y seen)

lemma dedupFirst_eq_self [DecidableEq α] :
    ∀ (l seen : List α), l.Nodup → (∀ x ∈ l, x ∉ seen) → dedupFirst seen l = l := by
  intro l
  induction l with
  | nil => intro seen _ _; rfl
  | cons y ys ih =>
    intro seen hnd hdisj
    have hy : y ∉ seen := hdisj y (List.mem_cons_self y ys)
    rw [dedupFirst, if_neg hy]
    congr 1
    refine ih (y :: seen) (List.nodup_cons.mp hnd).2 ?_
    intro x hx
    intro hc
    rcases List.mem_cons.mp hc with h1 | h1
    · exact (List.nodup_cons.mp hnd).1 (h1 ▸ hx)
    · exact hdisj x (List.mem_cons_of_mem y hx) h1

lemma toFinset_dedupFirst [DecidableEq α] (l : List α) :
    (dedupFirst [] l).toFinset = l.toFinset := by
  ext x
  simp [List.mem_toFinset, mem_dedupFirst]

lemma length_dedupFirst [DecidableEq α] (l : List α) :
    (dedupFirst [] l).length = l.toFinset.card := by
  rw [← toFinset_dedupFirst l, List.toFinset_card_of_nodup (nodup_dedupFirst l [])]

/-- Candidate pool of generateOptions (src/App.tsx line 47): the
universe with the target question removed by id. -/
def candidatePool (currentQ : Question) (allQuestions : List Question) : List Question :=
  allQuestions.filter (fun qq => qq.id != currentQ.id)

/-- Same-domain candidate pool (src/App.tsx line 50). -/
def sameDomainPool (currentQ : Question) (allQuestions : List Question) : List Question :=
  (candidatePool currentQ allQuestions).filter (fun qq => qq.domain == currentQ.domain)

/-- Pool actually used (src/App.tsx lines 51-53): the same-domain pool
when it has at least 3 members, otherwise the full candidate pool. -/
def selectedPool (currentQ : Question) (allQuestions : List Question) : List Question :=
  if 3 ≤ (sameDomainPool currentQ allQuestions).length then
    sameDomainPool currentQ allQuestions
  else
    candidatePool currentQ allQuestions

/-- The deduplicated answer texts of the selected pool (src/App.tsx
line 56). -/
def uniqueAnswers (currentQ : Question) (allQuestions : List Question) : List String :=
  dedupFirst [] ((selectedPool currentQ allQuestions).map (fun qq => qq.a))

/-- generateOptions from src/App.tsx lines 44-63: shuffle the unique
answer texts, take 3 distractors, append the correct answer, shuffle
again. The two rand arguments feed the two shuffle calls. -/
def generateOptions (r1 r2 : Nat → Nat) (currentQ : Question)
    (allQuestions : List Question) : List String :=
  shuffle r2 (((shuffle r1 (uniqueAnswers currentQ allQuestions)).take 3) ++ [currentQ.a])

/-- The full component state of App (src/App.tsx lines 23-41). -/
structure AppState where
  gameState : GameState
  selectedDomain : String
  deck : List Question
  currentIndex : Nat
  currentOptions : List String
  selectedOption : Option String
  isAnswered : Bool
  timer : Nat
  isActive : Bool
  stats : Stats
deriving DecidableEq, Repr

/-- Placeholder question used to model a JavaScript out-of-range array
read; every reachable read in the source is in range. -/
def qdefault : Question := ⟨"", "", "", ""⟩

/-- The card at the cursor, deck[currentIndex] in the source. -/
def currentCard (s : AppState) : Question :=
  (s.deck.get? s.currentIndex).getD qdefault

/-- startGame from src/App.tsx lines 66-85, parameterised by the static
question list and by the random sources of its three shuffle calls (the
deck shuffle and the two inside generateOptions). -/
def startGame (rd r1 r2 : Nat → Nat) (questions : List Question)
    (s : AppState) : AppState :=
  let filtered :=
    if s.selectedDomain != "ALL" then
      questions.filter (fun qq => qq.domain == s.selectedDomain)
    else questions
  let shuffledDeck := shuffle rd filtered
  let s1 : AppState :=
    { s with
      deck := shuffledDeck
      currentIndex := 0
      gameState := GameState.PLAYING
      timer := TIMER_START
      stats := ⟨0, 0, 0, 0⟩
      isActive := true }
  if 0 < shuffledDeck.length then
    { s1 with
      currentOptions := generateOptions r1 r2 ((shuffledDeck.get? 0).getD qdefault) questions
      isAnswered := false
      selectedOption := none }
  else s1

/-- handleOptionClick from src/App.tsx lines 108-129, the submitAnswer
operation: guarded by isAnswered; records the selection, updates the
stats, and re-queues the current card at the tail when wrong. -/
def handleOptionClick (opt : String) (s : AppState) : AppState :=
  if s.isAnswered then s
  else
    let card := currentCard s
    let isCorrect := opt == card.a
    { s with
      selectedOption := some opt
      isAnswered := true
      stats :=
        { correct := s.stats.correct + (if isCorrect then 1 else 0)
          wrong := s.stats.wrong + (if isCorrect then 0 else 1)
          requeued := s.stats.requeued + (if isCorrect then 0 else 1)
          totalAnswered := s.stats.totalAnswered + 1 }
      deck := if isCorrect then s.deck else s.deck ++ [card] }

/-- handleNext from src/App.tsx lines 131-143, the advance operation:
if another card remains, move the cursor and regenerate options from
the static question list, else stop the timer and show the summary. -/
def handleNext (r1 r2 : Nat → Nat) (questions : List Question)
    (s : AppState) : AppState :=
  if s.currentIndex < s.deck.length - 1 then
    { s with
      currentIndex := s.currentIndex + 1
      currentOptions :=
        generateOptions r1 r2 ((s.deck.get? (s.currentIndex + 1)).getD qdefault) questions
      isAnswered := false
      selectedOption := none }
  else
    { s with
      isActive := false
      gameState := GameState.SUMMARY }

/-- accuracy from src/App.tsx lines 147-149. Math.round on a
non-negative value is floor of the value plus one half, which is
Mathlib's round on rationals. -/
def accuracy (st : Stats) : Int :=
  if 0 < st.totalAnswered then
    round (((st.correct : ℚ) / (st.totalAnswered : ℚ)) * 100)
  else 0

/-- A player event during the Playing phase: choosing an option, or
pressing next (with the random sources its option regeneration uses). -/
inductive Event where
  | answer (opt : String)
  | next (r1 r2 : Nat → Nat)

/-- One event handled by App. -/
def stepEvent (questions : List Question) (e : Event) (s : AppState) : AppState :=
  match e with
  | Event.answer opt => handleOptionClick opt s
  | Event.next r1 r2 => handleNext r1 r2 questions s

/-- A sequence of events handled in order. -/
def runEvents (questions : List Question) (es : List Event) (s : AppState) : AppState :=
  es.foldl (fun t e => stepEvent questions e t) s

/-- The stats invariant of the spec: requeued equals wrong, and
totalAnswered equals correct plus wrong. -/
def statsInv (s : AppState) : Prop :=
  s.stats.requeued = s.stats.wrong ∧
    s.stats.totalAnswered = s.stats.correct + s.stats.wrong

lemma statsInv_handleOptionClick (opt : String) (s : AppState)
    (h : statsInv s) : statsInv (handleOptionClick opt s) := by
  obtain ⟨h1, h2⟩ := h
  unfold handleOptionClick
  split
  · exact ⟨h1, h2⟩
  · by_cases hc : (opt == (currentCard s).a) = true <;>
      simp [statsInv, hc, h1, h2] <;> omega

lemma statsInv_handleNext (r1 r2 : Nat → Nat) (questions : List Question)
    (s : AppState) (h : statsInv s) : statsInv (handleNext r1 r2 questions s) := by
  unfold handleNext
  split <;> exact h

lemma statsInv_stepEvent (questions : List Question) (e : Event) (s : AppState)
    (h : statsInv s) : statsInv (stepEvent questions e s) := by
  cases e with
  | answer opt => exact statsInv_handleOptionClick opt s h
  | next r1 r2 => exact statsInv_handleNext r1 r2 questions s h

lemma statsInv_runEvents (questions : List Question) :
    ∀ (es : List Event) (s : AppState), statsInv s → statsInv (runEvents questions es s) := by
  intro es
  induction es with
  | nil => intro s h; exact h
  | cons e es ih =>
    intro s h
    exact ih _ (statsInv_stepEvent questions e s h)

lemma statsInv_startGame (rd r1 r2 : Nat → Nat) (questions : List Question)
    (s : AppState) : statsInv (startGame rd r1 r2 questions s) := by
  unfold statsInv startGame
  split <;> dsimp only <;> split <;> simp

lemma mono_handleOptionClick (opt : String) (s : AppState) :
    s.currentIndex ≤ (handleOptionClick opt s).currentIndex ∧
      s.deck.length ≤ (handleOptionClick opt s).deck.length := by
  by_cases ha : s.isAnswered = true <;>
    by_cases hc : (opt == (currentCard s).a) = true <;>
      simp [handleOptionClick, ha, hc]

lemma mono_handleNext (r1 r2 : Nat → Nat) (questions : List Question) (s : AppState) :
    s.currentIndex ≤ (handleNext r1 r2 questions s).currentIndex ∧
      s.deck.length ≤ (handleNext r1 r2 questions s).deck.length := by
  by_cases hn : s.currentIndex < s.deck.length - 1 <;>
    simp [handleNext, hn, Nat.le_succ]

lemma mono_stepEvent (questions : List Question) (e : Event) (s : AppState) :
    s.currentIndex ≤ (stepEvent questions e s).currentIndex ∧
      s.deck.length ≤ (stepEvent questions e s).deck.length := by
  cases e with
  | answer opt => exact mono_handleOptionClick opt s
  | next r1 r2 => exact mono_handleNext r1 r2 questions s

lemma mono_runEvents (questions : List Question) :
    ∀ (es : List Event) (s : AppState),
      s.currentIndex ≤ (runEvents questions es s).currentIndex ∧
        s.deck.length ≤ (runEvents questions es s).deck.length := by
  intro es
  induction es with
  | nil => intro s; exact ⟨Nat.le.refl, Nat.le.refl⟩
  | cons e es ih =>
    intro s
    obtain ⟨ha, hb⟩ := mono_stepEvent questions e s
    obtain ⟨hc, hd⟩ := ih (stepEvent questions e s)
    exact ⟨ha.trans hc, hb.trans hd⟩

/-- Fixture: four same-domain questions with pairwise distinct answers. -/
def qA1 : Question := ⟨"1", "D", "p1", "a1"⟩

def qA2 : Question := ⟨"2", "D", "p2", "a2"⟩

def qA3 : Question := ⟨"3", "D", "p3", "a3"⟩

def qA4 : Question := ⟨"4", "D", "p4", "a4"⟩

def U4a : List Question := [qA1, qA2, qA3, qA4]

/-- Fixture: four same-domain questions that all share the answer text x. -/
def x1 : Question := ⟨"1", "D", "p1", "x"⟩

def x2 : Question := ⟨"2", "D", "p2", "x"⟩

def x3 : Question := ⟨"3", "D", "p3", "x"⟩

def x4 : Question := ⟨"4", "D", "p4", "x"⟩

def U4x : List Question := [x1, x2, x3, x4]

/-- Fixture: two questions in different domains. -/
def qB1 : Question := ⟨"1", "DA", "p1", "b1"⟩

def qB2 : Question := ⟨"2", "DB", "p2", "b2"⟩

def U2b : List Question := [qB1, qB2]

/-- Fixture: a Setup-phase state with the ALL domain filter. -/
def setupState : AppState :=
  ⟨GameState.SETUP, "ALL", [], 0, [], none, false, 0, false, ⟨0, 0, 0, 0⟩⟩

/-- Fixture: a Playing-phase state on card 1 of 2, not yet answered. -/
def c4State : AppState :=
  ⟨GameState.PLAYING, "ALL", [qA1, qA2], 0, ["a1", "a2"], none, false, 1200, true,
    ⟨0, 0, 0, 0⟩⟩

/-- Fixture: a Playing-phase state whose current card is answered. -/
def ansState : AppState :=
  ⟨GameState.PLAYING, "ALL", [qA1, qA2], 0, ["a1", "a2"], some "a1", true, 1100, true,
    ⟨1, 0, 0, 1⟩⟩

/-- Fixture: a Playing-phase state on an unanswered single-card deck. -/
def playState : AppState :=
  ⟨GameState.PLAYING, "ALL", [qA1], 0, ["a1", "a2"], none, false, 1200, true,
    ⟨0, 0, 0, 0⟩⟩

/-- Claim C6: shuffle returns a permutation of its input, same multiset
of elements and same length, for every sequence including the empty and
singleton ones; the source copies the array before the in-place pass,
and the embedding is pure, so the input is never mutated. -/
theorem claim_C6 (rand : Nat → Nat) (l : List α) :
    List.Perm (shuffle rand l) l ∧ (shuffle rand l).length = l.length :=
  ⟨shuffle_perm rand l, shuffle_length rand l⟩

/-- Claim C9: accuracy is the rounded integer percentage
correct / totalAnswered * 100 when totalAnswered is positive, and 0
when totalAnswered is 0. -/
theorem claim_C9 (st : Stats) :
    (st.totalAnswered = 0 → accuracy st = 0) ∧
      (0 < st.totalAnswered →
        accuracy st = round (((st.correct : ℚ) / (st.totalAnswered : ℚ)) * 100)) := by
  constructor
  · intro h
    simp [accuracy, h]
  · intro h
    simp [accuracy, h]

/-- Witness for claim C9 at concrete stats records. -/
theorem claim_C9_witness :
    accuracy ⟨0, 0, 0, 0⟩ = 0 ∧
      accuracy ⟨2, 1, 1, 3⟩ = round ((((2 : Nat) : ℚ) / ((3 : Nat) : ℚ)) * 100) :=
  ⟨(claim_C9 ⟨0, 0, 0, 0⟩).1 rfl, (claim_C9 ⟨2, 1, 1, 3⟩).2 (by decide)⟩

/-- Claim C5: submitting a second answer for the same card before
advancing is a no-op; the whole state, in particular stats, deck,
selectedOption and answered, is unchanged, for every option. -/
theorem claim_C5 (opt : String) (s : AppState) (h : s.isAnswered = true) :
    handleOptionClick opt s = s := by
  simp [handleOptionClick, h]

/-- Witness for claim C5 at a concrete answered state. -/
theorem claim_C5_witness : handleOptionClick "a2" ansState = ansState :=
  claim_C5 "a2" ansState rfl

/-- Claim C3: starting from the zeroed stats of startGame, after any
sequence of submitAnswer and advance events the stats satisfy
requeued = wrong and totalAnswered = correct + wrong; in particular
this holds after every submitAnswer call. -/
theorem claim_C3 (rd r1 r2 : Nat → Nat) (questions : List Question)
    (s0 : AppState) (es : List Event) :
    (runEvents questions es (startGame rd r1 r2 questions s0)).stats.requeued
        = (runEvents questions es (startGame rd r1 r2 questions s0)).stats.wrong ∧
      (runEvents questions es (startGame rd r1 r2 questions s0)).stats.totalAnswered
        = (runEvents questions es (startGame rd r1 r2 questions s0)).stats.correct
            + (runEvents questions es (startGame rd r1 r2 questions s0)).stats.wrong :=
  statsInv_runEvents questions es _ (statsInv_startGame rd r1 r2 questions s0)

/-- Counterexample to claim C4: in a Playing state whose current card
is not yet answered, the advance handler still moves the cursor, so it
is not a no-op. Only the UI prevents this call: the Next button is
rendered solely when answered is true. -/
theorem claim_C4_counterexample :
    c4State.isAnswered = false ∧
      (handleNext (fun _ => 0) (fun _ => 0) U4a c4State).currentIndex
        ≠ c4State.currentIndex := by
  constructor
  · rfl
  · decide

/-- Claim C4 as amended: the advance handler does not read the
answered flag at all; with an unanswered current card it changes
cursor, options, phase and timer state exactly as it would with an
answered one. The no-op guard of the spec exists only in the UI layer,
which renders the Next control solely after an answer. -/
theorem claim_C4_amended (r1 r2 : Nat → Nat) (questions : List Question)
    (s : AppState) (b : Bool) :
    (handleNext r1 r2 questions { s with isAnswered := b }).currentIndex
        = (handleNext r1 r2 questions s).currentIndex ∧
      (handleNext r1 r2 questions { s with isAnswered := b }).currentOptions
        = (handleNext r1 r2 questions s).currentOptions ∧
      (handleNext r1 r2 questions { s with isAnswered := b }).gameState
        = (handleNext r1 r2 questions s).gameState ∧
      (handleNext r1 r2 questions { s with isAnswered := b }).timer
        = (handleNext r1 r2 questions s).timer ∧
      (handleNext r1 r2 questions { s with isAnswered := b }).isActive
        = (handleNext r1 r2 questions s).isActive := by
  by_cases hn : s.currentIndex < s.deck.length - 1 <;>
    simp [handleNext, hn]

lemma shuffle_nil (rand : Nat → Nat) : shuffle rand ([] : List α) = [] := rfl

/-- Counterexample to claim C2: with an empty question universe the
filtered pool is empty, yet startGame still sets the phase to Playing
instead of staying in Setup. -/
theorem claim_C2_counterexample :
    (startGame (fun _ => 0) (fun _ => 0) (fun _ => 0) [] setupState).gameState
        = GameState.PLAYING ∧
      (startGame (fun _ => 0) (fun _ => 0) (fun _ => 0) [] setupState).gameState
        ≠ GameState.SETUP := by
  constructor
  · rfl
  · decide

/-- Claim C2 as amended: when the domain-filtered universe is empty,
startGame still transitions to Playing, installing an empty deck,
cursor 0, zeroed stats, a reset running timer; only the first-card
option generation is skipped, so currentOptions, selectedOption and
answered keep their previous values. -/
theorem claim_C2_amended (rd r1 r2 : Nat → Nat) (questions : List Question)
    (s : AppState)
    (h : (if s.selectedDomain != "ALL" then
            questions.filter (fun qq => qq.domain == s.selectedDomain)
          else questions) = []) :
    startGame rd r1 r2 questions s =
      { s with
        deck := []
        currentIndex := 0
        gameState := GameState.PLAYING
        timer := TIMER_START
        stats := ⟨0, 0, 0, 0⟩
        isActive := true } := by
  by_cases hd : (s.selectedDomain != "ALL") = true
  · rw [if_pos hd] at h
    simp [startGame, hd, h, shuffle_nil]
  · rw [if_neg hd] at h
    simp [startGame, hd, h, shuffle_nil]

/-- Witness for the amended claim C2 at the empty universe. -/
theorem claim_C2_witness :
    startGame (fun _ => 0) (fun _ => 0) (fun _ => 0) [] setupState =
      { setupState with
        deck := []
        currentIndex := 0
        gameState := GameState.PLAYING
        timer := TIMER_START
        stats := ⟨0, 0, 0, 0⟩
        isActive := true } :=
  claim_C2_amended (fun _ => 0) (fun _ => 0) (fun _ => 0) [] setupState rfl

/-- Claim C7: within one session the cursor and the deck length never
decrease under any sequence of submitAnswer and advance events, and the
re-queue of a wrongly answered card appends exactly the current card to
the deck tail without moving the cursor. -/
theorem claim_C7 :
    (∀ (questions : List Question) (es : List Event) (s : AppState),
        s.currentIndex ≤ (runEvents questions es s).currentIndex ∧
          s.deck.length ≤ (runEvents questions es s).deck.length) ∧
      ∀ (opt : String) (s : AppState),
        s.isAnswered = false → opt ≠ (currentCard s).a →
          (handleOptionClick opt s).deck = s.deck ++ [currentCard s] ∧
            (handleOptionClick opt s).currentIndex = s.currentIndex := by
  constructor
  · exact fun questions es s => mono_runEvents questions es s
  · intro opt s ha ho
    have hb : (opt == (currentCard s).a) = false := beq_eq_false_iff_ne.mpr ho
    simp [handleOptionClick, ha, hb]

/-- Witness for claim C7: a concrete wrong answer on a one-card deck. -/
theorem claim_C7_witness :
    (playState.currentIndex ≤ (runEvents U4a [Event.answer "zz"] playState).currentIndex ∧
       playState.deck.length ≤ (runEvents U4a [Event.answer "zz"] playState).deck.length) ∧
      (handleOptionClick "zz" playState).deck = playState.deck ++ [currentCard playState] ∧
        (handleOptionClick "zz" playState).currentIndex = playState.currentIndex :=
  ⟨claim_C7.1 U4a [Event.answer "zz"] playState,
    claim_C7.2 "zz" playState rfl (by decide)⟩

/-- Claim C8: the candidate pool is restricted to exactly the
same-domain candidates when at least 3 of them share the target domain
and is kept whole otherwise, and the answer texts of the selected pool
are deduplicated (no duplicates remain, and no text is lost) before
distractor selection. -/
theorem claim_C8 (currentQ : Question) (questions : List Question) :
    (uniqueAnswers currentQ questions).Nodup ∧
      (∀ x, x ∈ uniqueAnswers currentQ questions ↔
          x ∈ (selectedPool currentQ questions).map (fun qq => qq.a)) ∧
      (3 ≤ (sameDomainPool currentQ questions).length →
          selectedPool currentQ questions = sameDomainPool currentQ questions) ∧
      ((sameDomainPool currentQ questions).length < 3 →
          selectedPool currentQ questions = candidatePool currentQ questions) := by
  refine ⟨nodup_dedupFirst _ [], fun x => ?_, fun h => ?_, fun h => ?_⟩
  · simp [uniqueAnswers, mem_dedupFirst]
  · rw [selectedPool, if_pos h]
  · rw [selectedPool, if_neg (by omega)]

/-- Witness for claim C8: the same-domain restriction fires on a
4-question same-domain universe and does not fire on a 2-question
cross-domain universe. -/
theorem claim_C8_witness :
    (uniqueAnswers qA1 U4a).Nodup ∧
      selectedPool qA1 U4a = sameDomainPool qA1 U4a ∧
      selectedPool qB1 U2b = candidatePool qB1 U2b :=
  ⟨(claim_C8 qA1 U4a).1, (claim_C8 qA1 U4a).2.2.1 (by decide),
    (claim_C8 qB1 U2b).2.2.2 (by decide)⟩

/-- Claim C10: generateOptions always returns min(3, d) + 1 options,
where d is the number of distinct answer texts of the selected
candidate pool, and the returned list always contains the target
correct answer; with fewer than 3 available distractors the list is
simply short. -/
theorem claim_C10 (r1 r2 : Nat → Nat) (currentQ : Question)
    (questions : List Question) :
    (generateOptions r1 r2 currentQ questions).length
        = min 3 ((selectedPool currentQ questions).map (fun qq => qq.a)).toFinset.card + 1 ∧
      currentQ.a ∈ generateOptions r1 r2 currentQ questions := by
  constructor
  · rw [generateOptions, shuffle_length, List.length_append, List.length_take,
      shuffle_length, uniqueAnswers, length_dedupFirst, List.length_singleton]
  · rw [generateOptions, shuffle_mem]
    exact List.mem_append_right _ (List.mem_singleton_self _)

lemma candidatePool_sublist (currentQ : Question) (questions : List Question) :
    List.Sublist (candidatePool currentQ questions) questions :=
  List.filter_sublist questions

lemma selectedPool_sublist (currentQ : Question) (questions : List Question) :
    List.Sublist (selectedPool currentQ questions) (candidatePool currentQ questions) := by
  rw [selectedPool]
  split
  · exact List.filter_sublist _
  · exact List.Sublist.refl _

lemma mem_candidatePool (currentQ qq : Question) (questions : List Question) :
    qq ∈ candidatePool currentQ questions ↔ qq ∈ questions ∧ qq.id ≠ currentQ.id := by
  simp [candidatePool, List.mem_filter]

lemma filter_ne_id_length :
    ∀ (l : List Question) (tid : String), tid ∈ l.map Question.id →
      (l.map Question.id).Nodup →
      (l.filter (fun qq => qq.id != tid)).length + 1 = l.length := by
  intro l
  induction l with
  | nil => intro tid htid; cases htid
  | cons qh qt ih =>
    intro tid htid hnd
    simp only [List.map_cons, List.nodup_cons] at hnd
    rcases List.mem_cons.mp htid with h1 | h1
    · have hh : ¬ ((qh.id != tid) = true) := by subst h1; simp
      rw [@List.filter_cons_of_neg _ (fun qq => qq.id != tid) qh qt hh]
      have hall : qt.filter (fun qq => qq.id != tid) = qt := by
        refine List.filter_eq_self.mpr ?_
        intro qq hq
        have hne : qq.id ≠ tid := by
          intro hc
          exact hnd.1 (h1 ▸ hc ▸ List.mem_map_of_mem Question.id hq)
        simpa using hne
      rw [hall]
      simp
    · have hh : (qh.id != tid) = true := by
        simp only [bne_iff_ne, ne_eq]
        intro hc
        exact hnd.1 (hc ▸ h1)
      rw [@List.filter_cons_of_pos _ (fun qq => qq.id != tid) qh qt hh]
      have hih := ih tid h1 hnd.2
      simp only [List.length_cons]
      omega

lemma candidatePool_length (currentQ : Question) (questions : List Question)
    (hmem : currentQ ∈ questions) (hids : (questions.map Question.id).Nodup) :
    (candidatePool currentQ questions).length + 1 = questions.length :=
  filter_ne_id_length questions currentQ.id
    (List.mem_map_of_mem Question.id hmem) hids

lemma selectedPool_length_ge (currentQ : Question) (questions : List Question)
    (hmem : currentQ ∈ questions) (hids : (questions.map Question.id).Nodup)
    (hlen : 4 ≤ questions.length) :
    3 ≤ (selectedPool currentQ questions).length := by
  rw [selectedPool]
  split
  · assumption
  · have hc := candidatePool_length currentQ questions hmem hids
    omega

lemma answers_nodup_selectedPool (currentQ : Question) (questions : List Question)
    (hans : (questions.map (fun qq => qq.a)).Nodup) :
    ((selectedPool currentQ questions).map (fun qq => qq.a)).Nodup :=
  List.Nodup.sublist
    (((selectedPool_sublist currentQ questions).trans
        (candidatePool_sublist currentQ questions)).map (fun qq => qq.a))
    hans

lemma target_answer_not_mem (currentQ : Question) (questions : List Question)
    (hmem : currentQ ∈ questions)
    (hans : (questions.map (fun qq => qq.a)).Nodup) :
    currentQ.a ∉ (selectedPool currentQ questions).map (fun qq => qq.a) := by
  intro hc
  rcases List.mem_map.mp hc with ⟨qq, hq, hqa⟩
  have hq2 : qq ∈ candidatePool currentQ questions :=
    ((selectedPool_sublist currentQ questions).subset) hq
  obtain ⟨hqU, hqid⟩ := (mem_candidatePool currentQ qq questions).mp hq2
  have heq : qq = currentQ := List.inj_on_of_nodup_map hans hqU hmem hqa
  exact hqid (congrArg Question.id heq)

/-- Counterexample to claim C1: a universe of 4 questions with
pairwise distinct ids but a shared answer text. The target is in the
universe and the universe has 4 elements, yet generateOptions returns
only 2 strings, both equal to the correct answer. -/
theorem claim_C1_counterexample :
    x1 ∈ U4x ∧ 4 ≤ U4x.length ∧
      (generateOptions (fun _ => 0) (fun _ => 0) x1 U4x).length ≠ 4 := by
  refine ⟨by decide, by decide, by decide⟩

/-- Claim C1 as amended: when the universe additionally has pairwise
distinct ids (a stated data-model invariant) and pairwise distinct
answer texts, generateOptions on a member of a universe of at least 4
questions returns exactly 4 pairwise distinct strings of which exactly
one equals the target correct answer. -/
theorem claim_C1_amended (r1 r2 : Nat → Nat) (currentQ : Question)
    (questions : List Question)
    (hmem : currentQ ∈ questions)
    (hids : (questions.map Question.id).Nodup)
    (hans : (questions.map (fun qq => qq.a)).Nodup)
    (hlen : 4 ≤ questions.length) :
    (generateOptions r1 r2 currentQ questions).length = 4 ∧
      (generateOptions r1 r2 currentQ questions).Nodup ∧
      (generateOptions r1 r2 currentQ questions).count currentQ.a = 1 := by
  have hN : ((selectedPool currentQ questions).map (fun qq => qq.a)).Nodup :=
    answers_nodup_selectedPool currentQ questions hans
  have hua : uniqueAnswers currentQ questions
      = (selectedPool currentQ questions).map (fun qq => qq.a) := by
    rw [uniqueAnswers]
    exact dedupFirst_eq_self _ [] hN (by simp)
  have hlen3 : 3 ≤ (uniqueAnswers currentQ questions).length := by
    rw [hua, List.length_map]
    exact selectedPool_length_ge currentQ questions hmem hids hlen
  have hdlen : ((shuffle r1 (uniqueAnswers currentQ questions)).take 3).length = 3 := by
    rw [List.length_take, shuffle_length]
    omega
  have hdnodup : ((shuffle r1 (uniqueAnswers currentQ questions)).take 3).Nodup :=
    List.Nodup.sublist (List.take_sublist _ _)
      ((shuffle_nodup _ _).mpr (nodup_dedupFirst _ []))
  have hnotmem : currentQ.a ∉ (shuffle r1 (uniqueAnswers currentQ questions)).take 3 := by
    intro hc
    have hm : currentQ.a ∈ uniqueAnswers currentQ questions :=
      (shuffle_mem _ _ _).mp (List.take_subset _ _ hc)
    rw [hua] at hm
    exact target_answer_not_mem currentQ questions hmem hans hm
  refine ⟨?_, ?_, ?_⟩
  · rw [generateOptions, shuffle_length, List.length_append, hdlen,
      List.length_singleton]
  · rw [generateOptions, shuffle_nodup]
    refine List.nodup_append.mpr ⟨hdnodup, List.nodup_singleton _, ?_⟩
    intro y hy hy2
    rw [List.mem_singleton] at hy2
    exact hnotmem (hy2 ▸ hy)
  · rw [generateOptions, shuffle_count, List.count_append,
      List.count_eq_zero.mpr hnotmem]
    simp

/-- Witness for the amended claim C1 on a 4-question universe with
distinct ids and distinct answers. -/
theorem claim_C1_witness :
    (generateOptions (fun _ => 0) (fun _ => 0) qA1 U4a).length = 4 ∧
      (generateOptions (fun _ => 0) (fun _ => 0) qA1 U4a).Nodup ∧
      (generateOptions (fun _ => 0) (fun _ => 0) qA1 U4a).count qA1.a = 1 :=
  claim_C1_amended (fun _ => 0) (fun _ => 0) qA1 U4a
    (by decide) (by decide) (by decide) (by decide)
